import Mathlib

/-!
Verification of the security core of the repository (src/backend/src/utils/security.py)
against its natural-language specification.

The Python module is shallowly embedded below:

* `PasswordPolicy.validate_password` becomes a pure Lean function over `List Char`
  (Python's Unicode character classes `isdigit`/`isalnum`/`isupper`/`islower` are
  modelled by Lean's ASCII `Char.isDigit`/`Char.isAlphanum`/`Char.isUpper`/`Char.isLower`).
* `SecretManager` keeps its two nullable fields (`_fernet`, `_key_created`) and the
  hard-coded 30-day `_rotation_interval`; time is passed explicitly as an `Int`
  (seconds).  `Fernet.generate_key()` is modelled as drawing the next unused key
  identity from a counter, and a Fernet token is modelled as the pair of the key
  identity it was produced under and the plaintext bytes: decryption under key `k`
  succeeds exactly when the token was produced under `k`, otherwise Fernet raises
  `InvalidToken` (authenticated encryption, idealised as forgery-free).
* `SecurityService.check_rate_limit` keeps the Python control flow exactly; the
  Python dict `self._failed_attempts` is modelled as a map `String → Option RateLimitEntry`
  (a Python dict is semantically a finite map; its insertion order is irrelevant to
  every operation performed here).
* `constant_time_compare` compares the SHA-256 digests of its two inputs with
  `hmac.compare_digest`; SHA-256 is embedded in full (FIPS 180-4) over byte lists,
  and `hmac.compare_digest` on the two (always 32-byte) digests is byte-string
  equality.
-/

namespace Vitalyst

/-! ## PasswordPolicy (security.py lines 13-39) -/

/-- Configuration fields of `class PasswordPolicy`, with their pydantic defaults. -/
structure PasswordPolicy where
  min_length : Nat := 12
  require_numbers : Bool := true
  require_symbols : Bool := true
  require_uppercase : Bool := true
  require_lowercase : Bool := true
deriving DecidableEq, Repr

/-- The distinct failure messages returned by `validate_password`, one constructor
per Python return string ("Password must be at least … characters", "… at least one
number", "… one symbol", "… one uppercase letter", "… one lowercase letter"). -/
inductive PolicyViolation where
  | tooShort
  | noNumber
  | noSymbol
  | noUppercase
  | noLowercase
deriving DecidableEq, Repr

/-- `PasswordPolicy.validate_password` (security.py lines 22-39): the chain of
early returns, in source order. -/
def PasswordPolicy.validate_password (pol : PasswordPolicy) (password : List Char) :
    Bool × Option PolicyViolation :=
  if password.length < pol.min_length then
    (false, some .tooShort)
  else if pol.require_numbers && !password.any (fun c => c.isDigit) then
    (false, some .noNumber)
  else if pol.require_symbols && !password.any (fun c => !c.isAlphanum) then
    (false, some .noSymbol)
  else if pol.require_uppercase && !password.any (fun c => c.isUpper) then
    (false, some .noUppercase)
  else if pol.require_lowercase && !password.any (fun c => c.isLower) then
    (false, some .noLowercase)
  else
    (true, none)

/-- The five policy rules, named after the spec's list. -/
inductive Rule where
  | length
  | numbers
  | symbols
  | uppercase
  | lowercase
deriving DecidableEq, Repr

/-- The fixed rule order stated by the spec. -/
def ruleOrder : List Rule := [.length, .numbers, .symbols, .uppercase, .lowercase]

/-- A rule is violated when it is configured (length is always configured) and the
password fails its check. -/
def violates (pol : PasswordPolicy) (password : List Char) : Rule → Bool
  | .length => password.length < pol.min_length
  | .numbers => pol.require_numbers && !password.any (fun c => c.isDigit)
  | .symbols => pol.require_symbols && !password.any (fun c => !c.isAlphanum)
  | .uppercase => pol.require_uppercase && !password.any (fun c => c.isUpper)
  | .lowercase => pol.require_lowercase && !password.any (fun c => c.isLower)

/-- The failure message each rule produces. -/
def reasonOf : Rule → PolicyViolation
  | .length => .tooShort
  | .numbers => .noNumber
  | .symbols => .noSymbol
  | .uppercase => .noUppercase
  | .lowercase => .noLowercase

/-! ## SecretManager (security.py lines 90-123) -/

/-- A Fernet token, modelled as the identity of the key that produced it together
with the plaintext bytes it protects. -/
structure FernetToken where
  keyId : Nat
  data : List Nat
deriving DecidableEq, Repr

/-- Errors `SecretManager.decrypt` can raise: `ValueError("No encryption key
available")` when `self._fernet is None`, and `cryptography.fernet.InvalidToken`
when the token was not produced by the current key. -/
inductive DecryptError where
  | noKey
  | invalidToken
deriving DecidableEq, Repr

/-- Error `SecretManager.encrypt` would raise if `self._fernet` were `None` after
the rotation check (an `AttributeError`; unreachable from states the class itself
produces). -/
inductive EncryptError where
  | noFernet
deriving DecidableEq, Repr

/-- State of `class SecretManager`: `_fernet` (the current Fernet key, if any),
`_key_created` (its creation time), the hard-coded `_rotation_interval` of
`timedelta(days=30)` (2592000 seconds), plus the supply counter for fresh key
identities standing in for `Fernet.generate_key()`. -/
structure SecretManager where
  fernet : Option Nat
  key_created : Option Int
  rotation_interval : Int
  freshKey : Nat
deriving DecidableEq, Repr

/-- `SecretManager.__init__`. -/
def SecretManager.init : SecretManager :=
  { fernet := none, key_created := none, rotation_interval := 2592000, freshKey := 0 }

/-- `SecretManager._create_key` at time `now`. -/
def SecretManager.create_key (s : SecretManager) (now : Int) : SecretManager :=
  { s with fernet := some s.freshKey, key_created := some now, freshKey := s.freshKey + 1 }

/-- `SecretManager._should_rotate` at time `now`. -/
def SecretManager.should_rotate (s : SecretManager) (now : Int) : Bool :=
  match s.key_created with
  | none => true
  | some created => s.rotation_interval < now - created

/-- `SecretManager.encrypt` at time `now`: rotate if due, then encrypt under the
current key. -/
def SecretManager.encrypt (s : SecretManager) (now : Int) (data : List Nat) :
    Except EncryptError (FernetToken × SecretManager) :=
  let s' := if s.should_rotate now then s.create_key now else s
  match s'.fernet with
  | none => .error .noFernet
  | some k => .ok (⟨k, data⟩, s')

/-- `SecretManager.decrypt`: raise if no key has ever been created, otherwise let
Fernet authenticate and decrypt the token under the current key. -/
def SecretManager.decrypt (s : SecretManager) (tok : FernetToken) :
    Except DecryptError (List Nat) :=
  match s.fernet with
  | none => .error .noKey
  | some k => if tok.keyId = k then .ok tok.data else .error .invalidToken

/-- The two nullable fields of `SecretManager` are always set together: true of
`__init__` and preserved by every method. -/
def SecretManager.WF (s : SecretManager) : Prop :=
  s.fernet = none ↔ s.key_created = none

/-! ## Rate limiting configuration and SecurityService (security.py lines 42-162) -/

/-- `class KeyRotation` configuration (security.py lines 42-51); the interval
default `timedelta(days=30)` is 2592000 seconds. -/
structure KeyRotation where
  enabled : Bool := true
  interval : Int := 2592000
  key_length : Nat := 256
deriving DecidableEq, Repr

/-- `class RateLimit` configuration (security.py lines 54-65); the window default
`timedelta(minutes=15)` is 900 seconds. -/
structure RateLimit where
  window : Int := 900
  max_requests : Nat := 100
  skip_paths : List String := ["/health", "/metrics"]
deriving DecidableEq, Repr

/-- `class SecurityConfig` (security.py lines 68-87); `lockout_duration` default
`timedelta(minutes=15)` is 900 seconds. -/
structure SecurityConfig where
  key_rotation : KeyRotation := {}
  password_policy : PasswordPolicy := {}
  rate_limit : RateLimit := {}
  max_login_attempts : Nat := 5
  lockout_duration : Int := 900
deriving DecidableEq, Repr

/-- One value of the `self._failed_attempts` dict: `{"count": …, "timestamp": …}`. -/
structure RateLimitEntry where
  count : Nat
  timestamp : Int
deriving DecidableEq, Repr

/-- State of `class SecurityService` (security.py lines 126-173).  The Python dict
`self._failed_attempts` is modelled as the finite map it denotes,
`String → Option RateLimitEntry` (insertion order plays no role in any operation
of the class). -/
structure SecurityService where
  config : SecurityConfig
  secret_manager : SecretManager
  failed_attempts : String → Option RateLimitEntry

/-- `SecurityService.__init__`. -/
def SecurityService.init (config : SecurityConfig) (sm : SecretManager) : SecurityService :=
  { config := config, secret_manager := sm, failed_attempts := fun _ => none }

/-- The dict comprehension of security.py lines 148-152: keep only entries with
`now - v["timestamp"] < window`. -/
def pruneEntries (window now : Int) (d : String → Option RateLimitEntry) :
    String → Option RateLimitEntry :=
  fun k =>
    match d k with
    | none => none
    | some e => if now - e.timestamp < window then some e else none

/-- `SecurityService.validate_password` (security.py lines 135-137): delegates to
the configured policy. -/
def SecurityService.validate_password (svc : SecurityService) (password : List Char) :
    Bool × Option PolicyViolation :=
  svc.config.password_policy.validate_password password

/-- `SecurityService.check_rate_limit` (security.py lines 139-162) at time `now`:
exempt paths short-circuit; otherwise prune stale entries, then admit-and-create,
deny-without-increment, or admit-and-increment.  Returns the admit decision and
the updated service state. -/
def SecurityService.check_rate_limit (svc : SecurityService) (path ip : String) (now : Int) :
    Bool × SecurityService :=
  if path ∈ svc.config.rate_limit.skip_paths then
    (true, svc)
  else
    let key := ip ++ ":" ++ path
    let d := pruneEntries svc.config.rate_limit.window now svc.failed_attempts
    match d key with
    | none =>
        (true, { svc with
          failed_attempts := fun k => if k = key then some ⟨1, now⟩ else d k })
    | some e =>
        if svc.config.rate_limit.max_requests ≤ e.count then
          (false, { svc with failed_attempts := d })
        else
          (true, { svc with
            failed_attempts := fun k => if k = key then some ⟨e.count + 1, e.timestamp⟩ else d k })

/-- Run a sequence of `check_rate_limit` calls for one `(path, ip)` pair at the
given times, collecting the admit decisions and threading the state. -/
def runCalls (svc : SecurityService) (path ip : String) : List Int → List Bool × SecurityService
  | [] => ([], svc)
  | t :: ts =>
      let r := svc.check_rate_limit path ip t
      let rest := runCalls r.2 path ip ts
      (r.1 :: rest.1, rest.2)

/-! ## SHA-256 (FIPS 180-4), used by `constant_time_compare` (security.py lines 168-173)

Bytes are `Nat`s below 256, 32-bit words are `Nat`s reduced modulo `2^32`. -/

/-- Right rotation of a 32-bit word. -/
def rotr (n x : Nat) : Nat := ((x >>> n) ||| (x <<< (32 - n))) % 2 ^ 32

/-- SHA-256 `Ch(x,y,z) = (x ∧ y) ⊕ (¬x ∧ z)`; complement as xor with the 32-bit mask. -/
def ch (x y z : Nat) : Nat := (x &&& y) ^^^ ((x ^^^ 0xffffffff) &&& z)

/-- SHA-256 `Maj(x,y,z)`. -/
def maj (x y z : Nat) : Nat := (x &&& y) ^^^ (x &&& z) ^^^ (y &&& z)

/-- SHA-256 `Σ₀`. -/
def bigSigma0 (x : Nat) : Nat := rotr 2 x ^^^ rotr 13 x ^^^ rotr 22 x

/-- SHA-256 `Σ₁`. -/
def bigSigma1 (x : Nat) : Nat := rotr 6 x ^^^ rotr 11 x ^^^ rotr 25 x

/-- SHA-256 `σ₀`. -/
def smallSigma0 (x : Nat) : Nat := rotr 7 x ^^^ rotr 18 x ^^^ (x >>> 3)

/-- SHA-256 `σ₁`. -/
def smallSigma1 (x : Nat) : Nat := rotr 17 x ^^^ rotr 19 x ^^^ (x >>> 10)

/-- The 64 SHA-256 round constants (FIPS 180-4, in decimal). -/
def roundConstants : List Nat :=
  [1116352408, 1899447441, 3049323471, 3921009573,
   961987163, 1508970993, 2453635748, 2870763221,
   3624381080, 310598401, 607225278, 1426881987,
   1925078388, 2162078206, 2614888103, 3248222580,
   3835390401, 4022224774, 264347078, 604807628,
   770255983, 1249150122, 1555081692, 1996064986,
   2554220882, 2821834349, 2952996808, 3210313671,
   3336571891, 3584528711, 113926993, 338241895,
   666307205, 773529912, 1294757372, 1396182291,
   1695183700, 1986661051, 2177026350, 2456956037,
   2730485921, 2820302411, 3259730800, 3345764771,
   3516065817, 3600352804, 4094571909, 275423344,
   430227734, 506948616, 659060556, 883997877,
   958139571, 1322822218, 1537002063, 1747873779,
   1955562222, 2024104815, 2227730452, 2361852424,
   2428436474, 2756734187, 3204031479, 3329325298]

/-- The eight 32-bit working registers of the compression function. -/
structure Hash8 where
  a : Nat
  b : Nat
  c : Nat
  d : Nat
  e : Nat
  f : Nat
  g : Nat
  h : Nat
deriving DecidableEq, Repr

/-- The SHA-256 initial hash value (FIPS 180-4, in decimal). -/
def initHash : Hash8 :=
  ⟨1779033703, 3144134277, 1013904242, 2773480762,
   1359893119, 2600822924, 528734635, 1541459225⟩

/-- Big-endian assembly of consecutive 4-byte groups into 32-bit words. -/
def bytesToWords : List Nat → List Nat
  | b0 :: b1 :: b2 :: b3 :: rest =>
      ((b0 <<< 24) ||| (b1 <<< 16) ||| (b2 <<< 8) ||| b3) :: bytesToWords rest
  | _ => []

/-- Extend the 16 message-schedule words by `n` further words. -/
def extendWords (ws : List Nat) : Nat → List Nat
  | 0 => ws
  | n + 1 =>
      let i := ws.length
      let w := (smallSigma1 (ws.getD (i - 2) 0) + ws.getD (i - 7) 0 +
                smallSigma0 (ws.getD (i - 15) 0) + ws.getD (i - 16) 0) % 2 ^ 32
      extendWords (ws ++ [w]) n

/-- One round of the SHA-256 compression function, consuming a (constant, word) pair. -/
def shaRound (st : Hash8) (kw : Nat × Nat) : Hash8 :=
  let t1 := (st.h + bigSigma1 st.e + ch st.e st.f st.g + kw.1 + kw.2) % 2 ^ 32
  let t2 := (bigSigma0 st.a + maj st.a st.b st.c) % 2 ^ 32
  ⟨(t1 + t2) % 2 ^ 32, st.a, st.b, st.c, (st.d + t1) % 2 ^ 32, st.e, st.f, st.g⟩

/-- Compress one 64-byte block into the running hash. -/
def compressBlock (st : Hash8) (block : List Nat) : Hash8 :=
  let ws := extendWords (bytesToWords block) 48
  let r := (roundConstants.zip ws).foldl shaRound st
  ⟨(st.a + r.a) % 2 ^ 32, (st.b + r.b) % 2 ^ 32, (st.c + r.c) % 2 ^ 32, (st.d + r.d) % 2 ^ 32,
   (st.e + r.e) % 2 ^ 32, (st.f + r.f) % 2 ^ 32, (st.g + r.g) % 2 ^ 32, (st.h + r.h) % 2 ^ 32⟩

/-- The 8-byte big-endian encoding of the message bit length. -/
def lenBytes (len : Nat) : List Nat :=
  let b := 8 * len
  [(b >>> 56) % 256, (b >>> 48) % 256, (b >>> 40) % 256, (b >>> 32) % 256,
   (b >>> 24) % 256, (b >>> 16) % 256, (b >>> 8) % 256, b % 256]

/-- SHA-256 padding: append `0x80`, then zeros, then the 8-byte bit length, to a
multiple of 64 bytes. -/
def padMessage (msg : List Nat) : List Nat :=
  let z := (64 - (msg.length + 9) % 64) % 64
  msg ++ 0x80 :: List.replicate z 0 ++ lenBytes msg.length

/-- Split a byte list into 64-byte blocks. -/
def toBlocks (l : List Nat) : List (List Nat) :=
  if h : l = [] then []
  else l.take 64 :: toBlocks (l.drop 64)
termination_by l.length
decreasing_by
  cases l with
  | nil => exact absurd rfl h
  | cons x xs =>
      simp only [List.length_drop, List.length_cons]
      omega

/-- Big-endian bytes of one 32-bit word. -/
def wordBytes (w : Nat) : List Nat :=
  [(w >>> 24) % 256, (w >>> 16) % 256, (w >>> 8) % 256, w % 256]

/-- SHA-256 of a byte sequence, as its 32-byte digest. -/
def sha256 (msg : List Nat) : List Nat :=
  let r := (toBlocks (padMessage msg)).foldl compressBlock initHash
  wordBytes r.a ++ wordBytes r.b ++ wordBytes r.c ++ wordBytes r.d ++
  wordBytes r.e ++ wordBytes r.f ++ wordBytes r.g ++ wordBytes r.h

/-- `hmac.compare_digest` on two byte strings: a constant-time comparison whose
result is equality (inputs of differing length compare unequal). -/
def compare_digest (x y : List Nat) : Bool := x == y

/-- `SecurityService.constant_time_compare` (security.py lines 168-173) on the
already-UTF-8-encoded byte sequences of its two string arguments: compare the
SHA-256 digests with `hmac.compare_digest`. -/
def constant_time_compare (a b : List Nat) : Bool :=
  compare_digest (sha256 a) (sha256 b)

/-! ## Theorems about SecretManager -/

/-- C3: for every byte sequence `x`, `decrypt (encrypt x) = x` when no rotation
occurs between the two calls — from any well-formed manager state, `encrypt`
succeeds and immediately decrypting the resulting token returns `x`. -/
theorem decrypt_encrypt_roundtrip (s : SecretManager) (now : Int) (x : List Nat)
    (hwf : s.WF) :
    (s.encrypt now x).map (fun r => r.2.decrypt r.1) = .ok (.ok x) := by
  unfold SecretManager.encrypt
  by_cases h : s.should_rotate now = true
  · simp [h, SecretManager.create_key, SecretManager.decrypt, Except.map]
  · have h1 : s.key_created ≠ none := by
      intro hc
      unfold SecretManager.should_rotate at h
      rw [hc] at h
      simp at h
    have h2 : s.fernet ≠ none := fun hf => h1 (hwf.mp hf)
    obtain ⟨k, hk⟩ := Option.ne_none_iff_exists'.mp h2
    simp [h, hk, SecretManager.decrypt, Except.map]

/-- Witness for C3 at the freshly initialised manager. -/
theorem decrypt_encrypt_roundtrip_witness :
    (SecretManager.init.encrypt 0 [1, 2, 3]).map (fun r => r.2.decrypt r.1) =
      .ok (.ok [1, 2, 3]) :=
  decrypt_encrypt_roundtrip SecretManager.init 0 [1, 2, 3]
    (by simp [SecretManager.WF, SecretManager.init])

/-- C10: decrypting on a manager on which `encrypt` has never been called (the
freshly initialised state, where no key has ever been created) raises
`ValueError` and never returns plaintext. -/
theorem decrypt_without_key_errors (tok : FernetToken) :
    SecretManager.init.decrypt tok = .error .noKey := rfl

/-- C6: immediately after any successful `encrypt` (which performs the rotation
check), a current key is present and its age does not exceed the configured
rotation interval. -/
theorem encrypt_key_age_bounded (s : SecretManager) (now : Int) (x : List Nat)
    (tok : FernetToken) (s' : SecretManager)
    (hpos : 0 ≤ s.rotation_interval)
    (henc : s.encrypt now x = .ok (tok, s')) :
    ∃ k created, s'.fernet = some k ∧ s'.key_created = some created ∧
      now - created ≤ s'.rotation_interval := by
  unfold SecretManager.encrypt at henc
  by_cases h : s.should_rotate now = true
  · simp [h, SecretManager.create_key] at henc
    obtain ⟨-, rfl⟩ := henc
    exact ⟨s.freshKey, now, rfl, rfl, by simpa using hpos⟩
  · cases hc : s.key_created with
    | none =>
        unfold SecretManager.should_rotate at h
        rw [hc] at h
        simp at h
    | some created =>
        have hle : ¬ s.rotation_interval < now - created := by
          intro hlt
          exact h (by simp [SecretManager.should_rotate, hc, hlt])
        have hsr : s.should_rotate now = false := by
          simp [SecretManager.should_rotate, hc]
          omega
        rw [hsr] at henc
        cases hk : s.fernet with
        | none => simp [hk] at henc
        | some k =>
            simp [hk] at henc
            obtain ⟨-, h2⟩ := henc
            subst h2
            exact ⟨k, created, hk, hc, by omega⟩

/-- Witness for C6: one concrete successful encrypt from the initial state. -/
theorem encrypt_key_age_bounded_witness :
    ∃ k created,
      (SecretManager.mk (some 0) (some 7) 2592000 1).fernet = some k ∧
      (SecretManager.mk (some 0) (some 7) 2592000 1).key_created = some created ∧
      (7 : Int) - created ≤ (SecretManager.mk (some 0) (some 7) 2592000 1).rotation_interval :=
  encrypt_key_age_bounded SecretManager.init 7 [4] ⟨0, [4]⟩
    (SecretManager.mk (some 0) (some 7) 2592000 1) (by decide)
    (by rfl)

/-- C1: concrete run showing the code keeps no keyring.  Encrypt `[7]` at time 0,
encrypt again at time 2592001 (just past the 30-day interval, forcing a rotation),
then decrypt the first token: Fernet rejects it with `InvalidToken` — it never
succeeds and never reports a `KeyNotFound`-style missing-version error, because
the pre-rotation key has been discarded rather than retained in a keyring. -/
theorem decrypt_after_rotation_fails :
    SecretManager.init.encrypt 0 [7] =
      .ok (⟨0, [7]⟩, SecretManager.mk (some 0) (some 0) 2592000 1) ∧
    (SecretManager.mk (some 0) (some 0) 2592000 1).encrypt 2592001 [9] =
      .ok (⟨1, [9]⟩, SecretManager.mk (some 1) (some 2592001) 2592000 2) ∧
    (SecretManager.mk (some 1) (some 2592001) 2592000 2).decrypt ⟨0, [7]⟩ =
      .error .invalidToken :=
  ⟨rfl, rfl, rfl⟩

/-! ## Theorems about SecurityService.check_rate_limit -/

/-- Helper: a call whose key has no live entry after pruning admits and creates
the entry `{count := 1, timestamp := now}`, leaving the config untouched. -/
theorem rl_step_fresh (svc : SecurityService) (path ip : String) (now : Int)
    (hskip : path ∉ svc.config.rate_limit.skip_paths)
    (h0 : pruneEntries svc.config.rate_limit.window now svc.failed_attempts
      (ip ++ ":" ++ path) = none) :
    (svc.check_rate_limit path ip now).1 = true ∧
    (svc.check_rate_limit path ip now).2.config = svc.config ∧
    (svc.check_rate_limit path ip now).2.failed_attempts (ip ++ ":" ++ path) =
      some ⟨1, now⟩ := by
  unfold SecurityService.check_rate_limit
  simp [hskip, h0]

/-- Helper: a call whose key has a live in-window entry with count `c` admits and
increments exactly when `c < max_requests`, and denies without incrementing
otherwise; the entry's window start is never refreshed. -/
theorem rl_step_existing (svc : SecurityService) (path ip : String) (now : Int)
    (c : Nat) (t1 : Int)
    (hskip : path ∉ svc.config.rate_limit.skip_paths)
    (hent : svc.failed_attempts (ip ++ ":" ++ path) = some ⟨c, t1⟩)
    (hwin : now - t1 < svc.config.rate_limit.window) :
    (svc.check_rate_limit path ip now).1 = decide (c < svc.config.rate_limit.max_requests) ∧
    (svc.check_rate_limit path ip now).2.config = svc.config ∧
    (svc.check_rate_limit path ip now).2.failed_attempts (ip ++ ":" ++ path) =
      some ⟨if c < svc.config.rate_limit.max_requests then c + 1 else c, t1⟩ := by
  have hd : pruneEntries svc.config.rate_limit.window now svc.failed_attempts
      (ip ++ ":" ++ path) = some ⟨c, t1⟩ := by
    unfold pruneEntries
    rw [hent]
    simp [hwin]
  unfold SecurityService.check_rate_limit
  by_cases hm : c < svc.config.rate_limit.max_requests
  · simp [hskip, hd, hm, Nat.not_le.mpr hm]
  · have hle : svc.config.rate_limit.max_requests ≤ c := Nat.le_of_not_lt hm
    simp [hskip, hd, hm, hle]

/-- Helper: running a batch of in-window calls on a key holding a live entry with
count `c ≤ max_requests` admits the first `max_requests - c` of them and denies
the rest, the final count being capped at `max_requests`. -/
theorem runCalls_existing (path ip : String) (t1 : Int) :
    ∀ (ts : List Int) (c : Nat) (svc : SecurityService),
      path ∉ svc.config.rate_limit.skip_paths →
      svc.failed_attempts (ip ++ ":" ++ path) = some ⟨c, t1⟩ →
      c ≤ svc.config.rate_limit.max_requests →
      (∀ t ∈ ts, t - t1 < svc.config.rate_limit.window) →
      (runCalls svc path ip ts).1 =
        List.replicate (min ts.length (svc.config.rate_limit.max_requests - c)) true ++
        List.replicate (ts.length - (svc.config.rate_limit.max_requests - c)) false ∧
      (runCalls svc path ip ts).2.config = svc.config ∧
      (runCalls svc path ip ts).2.failed_attempts (ip ++ ":" ++ path) =
        some ⟨min (c + ts.length) svc.config.rate_limit.max_requests, t1⟩ := by
  intro ts
  induction ts with
  | nil =>
      intro c svc hskip hent hc _
      refine ⟨by simp [runCalls], rfl, ?_⟩
      simp [runCalls, hent]
      omega
  | cons t ts ih =>
      intro c svc hskip hent hc hts
      obtain ⟨hb, hcfg, hent'⟩ := rl_step_existing svc path ip t c t1 hskip hent
        (hts t (List.mem_cons_self t ts))
      set svc1 := (svc.check_rate_limit path ip t).2 with hsvc1
      have hskip1 : path ∉ svc1.config.rate_limit.skip_paths := by rw [hcfg]; exact hskip
      have hts1 : ∀ u ∈ ts, u - t1 < svc1.config.rate_limit.window := by
        rw [hcfg]; exact fun u hu => hts u (List.mem_cons_of_mem t hu)
      by_cases hm : c < svc.config.rate_limit.max_requests
      · have hent1 : svc1.failed_attempts (ip ++ ":" ++ path) = some ⟨c + 1, t1⟩ := by
          rw [hent']; simp [hm]
        have hc1 : c + 1 ≤ svc1.config.rate_limit.max_requests := by rw [hcfg]; omega
        obtain ⟨ih1, ih2, ih3⟩ := ih (c + 1) svc1 hskip1 hent1 hc1 hts1
        rw [hcfg] at ih1 ih3
        refine ⟨?_, by rw [show (runCalls svc path ip (t :: ts)).2 = (runCalls svc1 path ip ts).2 from rfl, ih2, hcfg], ?_⟩
        · show (svc.check_rate_limit path ip t).1 :: (runCalls svc1 path ip ts).1 = _
          rw [hb, ih1]
          have e1 : min (t :: ts).length (svc.config.rate_limit.max_requests - c) =
              min ts.length (svc.config.rate_limit.max_requests - (c + 1)) + 1 := by
            simp only [List.length_cons]; omega
          have e2 : (t :: ts).length - (svc.config.rate_limit.max_requests - c) =
              ts.length - (svc.config.rate_limit.max_requests - (c + 1)) := by
            simp only [List.length_cons]; omega
          rw [e1, e2, List.replicate_succ, List.cons_append]
          simp [hm]
        · show (runCalls svc1 path ip ts).2.failed_attempts _ = _
          rw [ih3]
          have : c + 1 + ts.length = c + (t :: ts).length := by simp; omega
          rw [this]
      · have hceq : c = svc.config.rate_limit.max_requests := by omega
        have hent1 : svc1.failed_attempts (ip ++ ":" ++ path) = some ⟨c, t1⟩ := by
          rw [hent']; simp [hm]
        have hc1 : c ≤ svc1.config.rate_limit.max_requests := by rw [hcfg]; omega
        obtain ⟨ih1, ih2, ih3⟩ := ih c svc1 hskip1 hent1 hc1 hts1
        rw [hcfg] at ih1 ih3
        refine ⟨?_, by rw [show (runCalls svc path ip (t :: ts)).2 = (runCalls svc1 path ip ts).2 from rfl, ih2, hcfg], ?_⟩
        · show (svc.check_rate_limit path ip t).1 :: (runCalls svc1 path ip ts).1 = _
          rw [hb, ih1]
          have e0 : svc.config.rate_limit.max_requests - c = 0 := by omega
          rw [e0]
          simp only [Nat.min_zero, List.replicate_zero, List.nil_append, Nat.sub_zero,
            List.length_cons, List.replicate_succ]
          simp [hm]
        · show (runCalls svc1 path ip ts).2.failed_attempts _ = _
          rw [ih3]
          have : min (c + ts.length) svc.config.rate_limit.max_requests =
              min (c + (t :: ts).length) svc.config.rate_limit.max_requests := by
            simp only [List.length_cons]; omega
          rw [this]

/-- C2: for a non-exempt path with `max_requests ≥ 1` and no pre-existing entry,
a sequence of calls all within the window opened by the first call admits exactly
the first `max_requests` calls and denies every further one; denials do not
increment the entry's count (it stays capped at `max_requests`), and once the
window has elapsed the next call is admitted again. -/
theorem check_rate_limit_window_behavior (svc : SecurityService) (path ip : String)
    (t1 : Int) (ts : List Int) (t' : Int)
    (hskip : path ∉ svc.config.rate_limit.skip_paths)
    (hm : 1 ≤ svc.config.rate_limit.max_requests)
    (h0 : svc.failed_attempts (ip ++ ":" ++ path) = none)
    (hts : ∀ t ∈ ts, t - t1 < svc.config.rate_limit.window)
    (ht' : svc.config.rate_limit.window ≤ t' - t1) :
    (runCalls svc path ip (t1 :: ts)).1 =
      List.replicate (min (ts.length + 1) svc.config.rate_limit.max_requests) true ++
      List.replicate ((ts.length + 1) - svc.config.rate_limit.max_requests) false ∧
    (runCalls svc path ip (t1 :: ts)).2.failed_attempts (ip ++ ":" ++ path) =
      some ⟨min (ts.length + 1) svc.config.rate_limit.max_requests, t1⟩ ∧
    ((runCalls svc path ip (t1 :: ts)).2.check_rate_limit path ip t').1 = true := by
  have hpr : pruneEntries svc.config.rate_limit.window t1 svc.failed_attempts
      (ip ++ ":" ++ path) = none := by
    unfold pruneEntries
    rw [h0]
  obtain ⟨hb, hcfg, hent⟩ := rl_step_fresh svc path ip t1 hskip hpr
  set svc1 := (svc.check_rate_limit path ip t1).2 with hsvc1
  have hskip1 : path ∉ svc1.config.rate_limit.skip_paths := by rw [hcfg]; exact hskip
  have hts1 : ∀ u ∈ ts, u - t1 < svc1.config.rate_limit.window := by
    rw [hcfg]; exact hts
  have hc1 : 1 ≤ svc1.config.rate_limit.max_requests := by rw [hcfg]; exact hm
  obtain ⟨ih1, ih2, ih3⟩ := runCalls_existing path ip t1 ts 1 svc1 hskip1 hent hc1 hts1
  rw [hcfg] at ih1 ih3
  have hrun1 : (runCalls svc path ip (t1 :: ts)).1 =
      (svc.check_rate_limit path ip t1).1 :: (runCalls svc1 path ip ts).1 := rfl
  have hrun2 : (runCalls svc path ip (t1 :: ts)).2 = (runCalls svc1 path ip ts).2 := rfl
  have hcnt : min (1 + ts.length) svc.config.rate_limit.max_requests =
      min (ts.length + 1) svc.config.rate_limit.max_requests := by omega
  refine ⟨?_, ?_, ?_⟩
  · rw [hrun1, hb, ih1]
    have e1 : min (ts.length + 1) svc.config.rate_limit.max_requests =
        min ts.length (svc.config.rate_limit.max_requests - 1) + 1 := by omega
    have e2 : (ts.length + 1) - svc.config.rate_limit.max_requests =
        ts.length - (svc.config.rate_limit.max_requests - 1) := by omega
    rw [e1, e2, List.replicate_succ, List.cons_append]
  · rw [hrun2, ih3, hcnt]
  · rw [hrun2]
    have hentF : (runCalls svc1 path ip ts).2.failed_attempts (ip ++ ":" ++ path) =
        some ⟨min (1 + ts.length) svc.config.rate_limit.max_requests, t1⟩ := ih3
    have hcfgF : (runCalls svc1 path ip ts).2.config = svc.config := ih2.trans hcfg
    have hprF : pruneEntries (runCalls svc1 path ip ts).2.config.rate_limit.window t'
        (runCalls svc1 path ip ts).2.failed_attempts (ip ++ ":" ++ path) = none := by
      unfold pruneEntries
      rw [hentF, hcfgF]
      simp
      omega
    exact (rl_step_fresh (runCalls svc1 path ip ts).2 path ip t'
      (by rw [hcfgF]; exact hskip) hprF).1

/-- Witness for C2: `max_requests = 2`, window 10, four calls at times 0,1,2,3 and
a fifth at time 10. -/
theorem check_rate_limit_window_behavior_witness :
    (runCalls
        (SecurityService.mk
          { rate_limit := { window := 10, max_requests := 2, skip_paths := [] } }
          SecretManager.init (fun _ => none)) "/api/v1/nodes" "1.2.3.4" [0, 1, 2, 3]).1 =
      List.replicate (min 4 2) true ++ List.replicate (4 - 2) false ∧
    (runCalls
        (SecurityService.mk
          { rate_limit := { window := 10, max_requests := 2, skip_paths := [] } }
          SecretManager.init (fun _ => none)) "/api/v1/nodes" "1.2.3.4" [0, 1, 2, 3]).2.failed_attempts
        ("1.2.3.4" ++ ":" ++ "/api/v1/nodes") = some ⟨min 4 2, 0⟩ ∧
    ((runCalls
        (SecurityService.mk
          { rate_limit := { window := 10, max_requests := 2, skip_paths := [] } }
          SecretManager.init (fun _ => none)) "/api/v1/nodes" "1.2.3.4" [0, 1, 2, 3]).2.check_rate_limit
        "/api/v1/nodes" "1.2.3.4" 10).1 = true := by
  have h := check_rate_limit_window_behavior
    (SecurityService.mk
      { rate_limit := { window := 10, max_requests := 2, skip_paths := [] } }
      SecretManager.init (fun _ => none)) "/api/v1/nodes" "1.2.3.4" 0 [1, 2, 3] 10
    (by simp) (by decide) rfl (by decide) (by decide)
  simpa using h

/-- C8: the first call for a key with no live entry (here: no entry at all after
pruning) is admitted unconditionally — in particular also when `max_requests` is
configured as 0 — and the entry is created with count 1. -/
theorem check_rate_limit_first_admit (svc : SecurityService) (path ip : String) (now : Int)
    (hskip : path ∉ svc.config.rate_limit.skip_paths)
    (h0 : pruneEntries svc.config.rate_limit.window now svc.failed_attempts
      (ip ++ ":" ++ path) = none) :
    (svc.check_rate_limit path ip now).1 = true ∧
    (svc.check_rate_limit path ip now).2.failed_attempts (ip ++ ":" ++ path) =
      some ⟨1, now⟩ :=
  ⟨(rl_step_fresh svc path ip now hskip h0).1, (rl_step_fresh svc path ip now hskip h0).2.2⟩

/-- Witness for C8 with `max_requests = 0`. -/
theorem check_rate_limit_first_admit_witness :
    ((SecurityService.mk
        { rate_limit := { window := 10, max_requests := 0, skip_paths := [] } }
        SecretManager.init (fun _ => none)).check_rate_limit "/api" "1.2.3.4" 0).1 = true ∧
    ((SecurityService.mk
        { rate_limit := { window := 10, max_requests := 0, skip_paths := [] } }
        SecretManager.init (fun _ => none)).check_rate_limit "/api" "1.2.3.4" 0).2.failed_attempts
      ("1.2.3.4" ++ ":" ++ "/api") = some ⟨1, 0⟩ :=
  check_rate_limit_first_admit
    (SecurityService.mk
      { rate_limit := { window := 10, max_requests := 0, skip_paths := [] } }
      SecretManager.init (fun _ => none)) "/api" "1.2.3.4" 0 (by simp) rfl

/-- C9: a call for a path in the exempt set always admits and returns the service
state unchanged — no entry is created, updated, or pruned. -/
theorem check_rate_limit_exempt (svc : SecurityService) (path ip : String) (now : Int)
    (hskip : path ∈ svc.config.rate_limit.skip_paths) :
    svc.check_rate_limit path ip now = (true, svc) := by
  unfold SecurityService.check_rate_limit
  simp [hskip]

/-- Witness for C9 at the default configuration's "/health" path. -/
theorem check_rate_limit_exempt_witness :
    (SecurityService.init {} SecretManager.init).check_rate_limit "/health" "1.2.3.4" 0 =
      (true, SecurityService.init {} SecretManager.init) :=
  check_rate_limit_exempt (SecurityService.init {} SecretManager.init) "/health" "1.2.3.4" 0
    (by simp [SecurityService.init])

/-! ## Theorems about PasswordPolicy -/

/-- C5: `validate_password` evaluates the configured rules in the fixed order
length, numbers, symbols, uppercase, lowercase, short-circuits on the first
failure, reports that first violated rule, and succeeds exactly when every
configured rule passes. -/
theorem validate_password_first_violation (pol : PasswordPolicy) (p : List Char) :
    pol.validate_password p =
      (match ruleOrder.find? (violates pol p) with
        | some r => (false, some (reasonOf r))
        | none => (true, none)) ∧
    ((pol.validate_password p).1 = true ↔ ∀ r, violates pol p r = false) := by
  have hmem : ∀ r : Rule, r ∈ ruleOrder := by
    intro r
    cases r <;> simp [ruleOrder]
  have hmain : pol.validate_password p =
      (match ruleOrder.find? (violates pol p) with
        | some r => (false, some (reasonOf r))
        | none => (true, none)) := by
    unfold PasswordPolicy.validate_password
    by_cases h1 : p.length < pol.min_length <;>
    rcases h2 : pol.require_numbers && !p.any (fun c => c.isDigit) with _ | _ <;>
    rcases h3 : pol.require_symbols && !p.any (fun c => !c.isAlphanum) with _ | _ <;>
    rcases h4 : pol.require_uppercase && !p.any (fun c => c.isUpper) with _ | _ <;>
    rcases h5 : pol.require_lowercase && !p.any (fun c => c.isLower) with _ | _ <;>
      simp [ruleOrder, List.find?, violates, reasonOf, h1, h2, h3, h4, h5]
  refine ⟨hmain, ?_⟩
  rw [hmain]
  cases hf : ruleOrder.find? (violates pol p) with
  | none =>
      simp only
      constructor
      · intro _ r
        have h := List.find?_eq_none.mp hf r (hmem r)
        simpa using h
      · intro _
        trivial
  | some r =>
      simp only
      constructor
      · intro h
        exact absurd h (by simp)
      · intro hall
        have hv := List.find?_some hf
        rw [hall r] at hv
        cases hv

/-- Demonstration of C5 on the spec's example: with the default policy
(minimum length 12), `"short1!"` fails with the length violation first, even
though it also lacks an uppercase letter. -/
theorem validate_password_first_violation_example :
    ({} : PasswordPolicy).validate_password "short1!".data = (false, some .tooShort) := by
  have h := (validate_password_first_violation {} "short1!".data).1
  rw [h]
  rfl

/-! ## Theorems about constant_time_compare -/

/-- A SHA-256 digest is 32 bytes long. -/
theorem sha256_length (m : List Nat) : (sha256 m).length = 32 := by
  simp [sha256, wordBytes]

/-- Every byte produced by `wordBytes` is below 256. -/
theorem wordBytes_lt (w : Nat) : ∀ x ∈ wordBytes w, x < 256 := by
  intro x hx
  simp only [wordBytes, List.mem_cons, List.not_mem_nil, or_false] at hx
  rcases hx with h | h | h | h <;> (subst h; exact Nat.mod_lt _ (by norm_num))

/-- Every byte of a SHA-256 digest is below 256. -/
theorem sha256_byte_lt (m : List Nat) : ∀ x ∈ sha256 m, x < 256 := by
  intro x hx
  simp only [sha256, List.mem_append] at hx
  rcases hx with ((((((h | h) | h) | h) | h) | h) | h) | h <;> exact wordBytes_lt _ x h

/-- C7 counterexample: it is not the case that `constant_time_compare a b` is true
exactly when the byte sequences `a` and `b` are identical.  The comparison is made
on 32-byte SHA-256 digests, and there are more 37-byte ASCII inputs (`128 ^ 37`)
than digests (`256 ^ 32`), so by pigeonhole the true-implies-identical direction
must fail on some pair of byte sequences. -/
theorem constant_time_compare_not_iff :
    ¬ ∀ a b : List Nat, (∀ x ∈ a, x < 256) → (∀ x ∈ b, x < 256) →
        (constant_time_compare a b = true ↔ a = b) := by
  intro H
  have hcard : Fintype.card (Fin 37 → Fin 128) ≤ Fintype.card (Fin 32 → Fin 256) := by
    apply Fintype.card_le_of_injective
      (fun f : Fin 37 → Fin 128 => fun i : Fin 32 =>
        (⟨(sha256 (List.ofFn fun j => ((f j : Fin 128) : Nat))).getD i.val 0 % 256,
          Nat.mod_lt _ (by norm_num)⟩ : Fin 256))
    intro f g hfg
    have hbytes : ∀ u : Fin 37 → Fin 128,
        ∀ x ∈ List.ofFn (fun j => ((u j : Fin 128) : Nat)), x < 256 := by
      intro u x hx
      simp only [List.mem_ofFn, Set.mem_range] at hx
      obtain ⟨j, rfl⟩ := hx
      exact lt_trans (u j).isLt (by norm_num)
    have hlenf := sha256_length (List.ofFn fun j => ((f j : Fin 128) : Nat))
    have hleng := sha256_length (List.ofFn fun j => ((g j : Fin 128) : Nat))
    have hdig : sha256 (List.ofFn fun j => ((f j : Fin 128) : Nat)) =
        sha256 (List.ofFn fun j => ((g j : Fin 128) : Nat)) := by
      apply List.ext_getElem (hlenf.trans hleng.symm)
      intro i h1 h2
      have hi : i < 32 := by rwa [hlenf] at h1
      have hpt := congrFun hfg ⟨i, hi⟩
      simp only [Fin.mk.injEq] at hpt
      rw [List.getD_eq_getElem _ 0 h1, List.getD_eq_getElem _ 0 h2] at hpt
      have hf256 := sha256_byte_lt _ _ (List.getElem_mem h1)
      have hg256 := sha256_byte_lt _ _ (List.getElem_mem h2)
      rwa [Nat.mod_eq_of_lt hf256, Nat.mod_eq_of_lt hg256] at hpt
    have hctc : constant_time_compare
        (List.ofFn fun j => ((f j : Fin 128) : Nat))
        (List.ofFn fun j => ((g j : Fin 128) : Nat)) = true := by
      unfold constant_time_compare compare_digest
      rw [hdig]
      exact beq_self_eq_true _
    have henc := (H _ _ (hbytes f) (hbytes g)).mp hctc
    funext j
    have hjf : (j : Nat) < (List.ofFn fun j => ((f j : Fin 128) : Nat)).length := by
      rw [List.length_ofFn]
      exact j.isLt
    have hjg : (j : Nat) < (List.ofFn fun j => ((g j : Fin 128) : Nat)).length := by
      rw [List.length_ofFn]
      exact j.isLt
    have hj : (List.ofFn fun j => ((f j : Fin 128) : Nat)).getD (j : Nat) 0 =
        (List.ofFn fun j => ((g j : Fin 128) : Nat)).getD (j : Nat) 0 := by
      rw [henc]
    rw [List.getD_eq_getElem _ 0 hjf, List.getD_eq_getElem _ 0 hjg,
      List.getElem_ofFn, List.getElem_ofFn] at hj
    exact Fin.ext hj
  rw [Fintype.card_fun, Fintype.card_fun, Fintype.card_fin, Fintype.card_fin,
    Fintype.card_fin] at hcard
  exact absurd hcard (by norm_num)

/-- C7 (amended): `constant_time_compare a b` is true exactly when the SHA-256
digests of `a` and `b` coincide; in particular byte-identical inputs, of any
lengths, always compare true. -/
theorem constant_time_compare_iff_digest (a b : List Nat) :
    (constant_time_compare a b = true ↔ sha256 a = sha256 b) ∧
    (a = b → constant_time_compare a b = true) := by
  constructor
  · simp [constant_time_compare, compare_digest]
  · rintro rfl
    simp [constant_time_compare, compare_digest]

/-- Witness for C7 (amended): identical inputs compare true. -/
theorem constant_time_compare_iff_digest_witness :
    constant_time_compare [104, 105] [104, 105] = true :=
  (constant_time_compare_iff_digest [104, 105] [104, 105]).2 rfl

end Vitalyst
